import Mathlib

/-!
Shallow embedding of the task-management service in `src/app.py`.

Modelling conventions, stated once here:

* Wall-clock timestamps (`datetime.utcnow()`) are modelled as natural
  numbers (seconds); every operation that reads the clock takes the
  current instant `now : Time` as an explicit argument.  The 60-second
  statistics TTL (`timedelta(seconds=60)`) becomes `now + 60`.
* Python floats (`estimated_hours` / `actual_hours` and all statistics)
  are modelled as exact rationals `Rat`; `round(x, 2)` becomes
  `pyRound2`, round-half-to-even at two decimal places on the exact
  value.
* The global dict `tasks` preserves insertion order, so it is modelled
  as a `List Task` in insertion order together with the id counter and
  the two cache cells (`analytics_cache` / `cache_expiry`, each used
  with the single key "stats_summary", hence an `Option` apiece).
* Pydantic request validation (title length, tag count, numeric
  ranges) happens before the route body runs; it is modelled by the
  predicates `validTaskCreate` / `validTaskUpdate` on inputs.  For
  `TaskUpdate`, `model_dump(exclude_unset=True)` is modelled by
  `Option` fields where `none` means "field not supplied"; a field
  explicitly supplied as JSON `null` is identified with omission.
* `calculate_checksum` is embedded in full: the canonical
  serialization `json.dumps(task_data, sort_keys=True, default=str)`
  over a field map, UTF-8 encoding, real SHA-256, and truncation of
  the hex digest to 16 characters.  `str(datetime)` is abstracted to
  the decimal rendering of the numeric timestamp and the repr of a
  float to a fixed rendering of the rational; both are value-injective
  stand-ins that no theorem below depends on.
* `list.sort` raises `TypeError` as soon as a comparison involves
  `None`.  During CPython run detection every adjacent pair of keys is
  compared whenever the list has at least two elements, so the sort of
  the `updated_at` keys raises exactly when at least two tasks survive
  filtering and at least one of them has `updated_at = None`.
  `get_tasks` returns `Except Unit` with `.error ()` standing for that
  `TypeError` (an HTTP 500); in the success branch all keys are
  non-null and the comparison is total.
* The artificial `simulate_heavy_computation` delays and the
  fire-and-forget background notification have no observable effect on
  the store and are omitted, as is the HTTP routing layer.
-/

set_option maxRecDepth 1000000

namespace App

abbrev Time := Nat

inductive TaskStatus where
  | pending
  | in_progress
  | completed
  | blocked
  | cancelled
  deriving DecidableEq

inductive TaskPriority where
  | low
  | medium
  | high
  | critical
  deriving DecidableEq

inductive TaskCategory where
  | development
  | testing
  | documentation
  | deployment
  | bugfix
  | feature
  deriving DecidableEq

/-- Value string of a `TaskStatus` (the str-enum's underlying value). -/
def statusStr : TaskStatus → String
  | .pending => "pending"
  | .in_progress => "in_progress"
  | .completed => "completed"
  | .blocked => "blocked"
  | .cancelled => "cancelled"

/-- Value string of a `TaskPriority`. -/
def priorityStr : TaskPriority → String
  | .low => "low"
  | .medium => "medium"
  | .high => "high"
  | .critical => "critical"

/-- Value string of a `TaskCategory`. -/
def categoryStr : TaskCategory → String
  | .development => "development"
  | .testing => "testing"
  | .documentation => "documentation"
  | .deployment => "deployment"
  | .bugfix => "bugfix"
  | .feature => "feature"

/-! ### JSON values and canonical serialization (json.dumps with sort_keys=True) -/

/-- Atomic JSON-serializable values appearing in a task dict. -/
inductive PyAtom where
  | astr (s : String)
  | aint (n : Int)
  | afloat (q : Rat)
  | anone
  deriving DecidableEq

/-- A task-dict value: an atom or a flat list of atoms (tags, dependencies). -/
inductive PyVal where
  | atom (a : PyAtom)
  | alist (l : List PyAtom)
  deriving DecidableEq

/-- JSON string escaping for the two characters that matter in this model. -/
def jsonEscapeChar (c : Char) : List Char :=
  if c = '"' then ['\\', '"'] else if c = '\\' then ['\\', '\\'] else [c]

/-- Quote a string as a JSON string literal. -/
def jsonQuote (s : String) : String :=
  String.mk ('"' :: (s.data.flatMap jsonEscapeChar ++ ['"']))

/-- Rendering of a rational standing in for Python's float repr. -/
def ratRepr (q : Rat) : String :=
  if q.den = 1 then toString q.num ++ ".0" else toString q.num ++ "/" ++ toString q.den

/-- Decimal rendering of a timestamp, standing in for str(datetime). -/
def timeRepr (n : Time) : String := toString n

def renderAtom : PyAtom → String
  | .astr s => jsonQuote s
  | .aint n => toString n
  | .afloat q => ratRepr q
  | .anone => "null"

def renderVal : PyVal → String
  | .atom a => renderAtom a
  | .alist l => "[" ++ String.intercalate ", " (l.map renderAtom) ++ "]"

/-- Lexicographic comparison of char lists by code point, as Python compares strings. -/
def charListLe : List Char → List Char → Bool
  | [], _ => true
  | _ :: _, [] => false
  | a :: as, b :: bs => if a < b then true else if b < a then false else charListLe as bs

def strLeB (a b : String) : Bool := charListLe a.data b.data

/-- Stable insertion sort with a boolean "should come first or tie" relation,
mirroring the stability of Python's sort. -/
def orderedInsertB {α : Type} (r : α → α → Bool) (a : α) : List α → List α
  | [] => [a]
  | b :: l => if r a b then a :: b :: l else b :: orderedInsertB r a l

def insertionSortB {α : Type} (r : α → α → Bool) : List α → List α
  | [] => []
  | a :: l => orderedInsertB r a (insertionSortB r l)

def pairKeyLe (x y : String × PyVal) : Bool := strLeB x.1 y.1

/-- Embedding of json.dumps(m, sort_keys=True, default=str) on a flat dict. -/
def pyJsonDumps (m : List (String × PyVal)) : String :=
  "\x7b" ++
    String.intercalate ", "
      ((insertionSortB pairKeyLe m).map (fun p => jsonQuote p.1 ++ ": " ++ renderVal p.2)) ++
  "\x7d"

/-! ### SHA-256 over natural-number bytes/words -/

def w32 (n : Nat) : Nat := n % 4294967296

def rotr (x k : Nat) : Nat := w32 ((x >>> k) ||| (x <<< (32 - k)))

def bigSigma0 (x : Nat) : Nat := rotr x 2 ^^^ rotr x 13 ^^^ rotr x 22

def bigSigma1 (x : Nat) : Nat := rotr x 6 ^^^ rotr x 11 ^^^ rotr x 25

def smallSigma0 (x : Nat) : Nat := rotr x 7 ^^^ rotr x 18 ^^^ (x >>> 3)

def smallSigma1 (x : Nat) : Nat := rotr x 17 ^^^ rotr x 19 ^^^ (x >>> 10)

def chF (x y z : Nat) : Nat := (x &&& y) ^^^ ((x ^^^ 4294967295) &&& z)

def majF (x y z : Nat) : Nat := (x &&& y) ^^^ (x &&& z) ^^^ (y &&& z)

structure H8 where
  a : Nat
  b : Nat
  c : Nat
  d : Nat
  e : Nat
  f : Nat
  g : Nat
  h : Nat
  deriving DecidableEq

def sha256K : List Nat :=
  [1116352408, 1899447441, 3049323471, 3921009573, 961987163, 1508970993,
   2453635748, 2870763221, 3624381080, 310598401, 607225278, 1426881987,
   1925078388, 2162078206, 2614888103, 3248222580, 3835390401, 4022224774,
   264347078, 604807628, 770255983, 1249150122, 1555081692, 1996064986,
   2554220882, 2821834349, 2952996808, 3210313671, 3336571891, 3584528711,
   113926993, 338241895, 666307205, 773529912, 1294757372, 1396182291,
   1695183700, 1986661051, 2177026350, 2456956037, 2730485921, 2820302411,
   3259730800, 3345764771, 3516065817, 3600352804, 4094571909, 275423344,
   430227734, 506948616, 659060556, 883997877, 958139571, 1322822218,
   1537002063, 1747873779, 1955562222, 2024104815, 2227730452, 2361852424,
   2428436474, 2756734187, 3204031479, 3329325298]

def sha256Init : H8 :=
  ⟨1779033703, 3144134277, 1013904242, 2773480762, 1359893119, 2600822924, 528734635, 1541459225⟩

def nextW (w : List Nat) : Nat :=
  let i := w.length
  w32 (smallSigma1 (w.getD (i - 2) 0) + w.getD (i - 7) 0 + smallSigma0 (w.getD (i - 15) 0) +
    w.getD (i - 16) 0)

def extendW (w : List Nat) : Nat → List Nat
  | 0 => w
  | k + 1 => extendW (w ++ [nextW w]) k

def sha256Round (s : H8) (p : Nat × Nat) : H8 :=
  let t1 := w32 (s.h + bigSigma1 s.e + chF s.e s.f s.g + p.2 + p.1)
  let t2 := w32 (bigSigma0 s.a + majF s.a s.b s.c)
  ⟨w32 (t1 + t2), s.a, s.b, s.c, w32 (s.d + t1), s.e, s.f, s.g⟩

def sha256Compress (hh : H8) (block : List Nat) : H8 :=
  let ws := extendW block 48
  let s := (ws.zip sha256K).foldl sha256Round hh
  ⟨w32 (hh.a + s.a), w32 (hh.b + s.b), w32 (hh.c + s.c), w32 (hh.d + s.d),
   w32 (hh.e + s.e), w32 (hh.f + s.f), w32 (hh.g + s.g), w32 (hh.h + s.h)⟩

def sha256Fold (hh : H8) (ws : List Nat) : Nat → H8
  | 0 => hh
  | k + 1 => sha256Fold (sha256Compress hh (ws.take 16)) (ws.drop 16) k

def lenBytes8 (n : Nat) : List Nat :=
  [n / 2 ^ 56 % 256, n / 2 ^ 48 % 256, n / 2 ^ 40 % 256, n / 2 ^ 32 % 256,
   n / 2 ^ 24 % 256, n / 2 ^ 16 % 256, n / 2 ^ 8 % 256, n % 256]

def padMsg (msg : List Nat) : List Nat :=
  msg ++ 128 :: (List.replicate ((119 - msg.length % 64) % 64) 0 ++ lenBytes8 (8 * msg.length))

def bytesToWords : List Nat → List Nat
  | b0 :: b1 :: b2 :: b3 :: rest => (((b0 * 256 + b1) * 256 + b2) * 256 + b3) :: bytesToWords rest
  | _ => []

def sha256Digest (msg : List Nat) : H8 :=
  let ws := bytesToWords (padMsg msg)
  sha256Fold sha256Init ws (ws.length / 16)

def hexDigitChars : List Char := "0123456789abcdef".data

def hexDigit (n : Nat) : Char := hexDigitChars.getD (n % 16) '0'

def wordHex (w : Nat) : List Char :=
  [hexDigit (w / 16 ^ 7), hexDigit (w / 16 ^ 6), hexDigit (w / 16 ^ 5), hexDigit (w / 16 ^ 4),
   hexDigit (w / 16 ^ 3), hexDigit (w / 16 ^ 2), hexDigit (w / 16), hexDigit w]

/-- Full hex digest (64 characters) of the SHA-256 of a byte list. -/
def sha256hexChars (msg : List Nat) : List Char :=
  let s := sha256Digest msg
  wordHex s.a ++ wordHex s.b ++ wordHex s.c ++ wordHex s.d ++
  wordHex s.e ++ wordHex s.f ++ wordHex s.g ++ wordHex s.h

def charUtf8 (c : Char) : List Nat :=
  let n := c.toNat
  if n < 128 then [n]
  else if n < 2048 then [192 + n / 64, 128 + n % 64]
  else if n < 65536 then [224 + n / 4096, 128 + n / 64 % 64, 128 + n % 64]
  else [240 + n / 262144, 128 + n / 4096 % 64, 128 + n / 64 % 64, 128 + n % 64]

def utf8Bytes (s : String) : List Nat := s.data.flatMap charUtf8

/-- Embedding of `calculate_checksum`: SHA-256 hexdigest of the canonical
serialization, truncated to its first 16 characters. -/
def calculate_checksum (m : List (String × PyVal)) : String :=
  String.mk ((sha256hexChars (utf8Bytes (pyJsonDumps m))).take 16)

/-! ### The data model -/

structure Task where
  id : Nat
  title : String
  description : Option String
  status : TaskStatus
  priority : TaskPriority
  category : TaskCategory
  assignee : Option String
  estimated_hours : Option Rat
  actual_hours : Option Rat
  tags : List String
  dependencies : List Nat
  created_at : Time
  updated_at : Option Time
  completed_at : Option Time
  checksum : String
  deriving DecidableEq

def optAtomS : Option String → PyAtom
  | some s => .astr s
  | none => .anone

def optAtomF : Option Rat → PyAtom
  | some q => .afloat q
  | none => .anone

def optAtomT : Option Time → PyAtom
  | some n => .astr (timeRepr n)
  | none => .anone

/-- The dict passed to `calculate_checksum`, in the insertion order of
`task_dict` in `create_task` (json.dumps sorts the keys itself). -/
def taskFieldMap (t : Task) : List (String × PyVal) :=
  [("id", .atom (.aint t.id)),
   ("title", .atom (.astr t.title)),
   ("description", .atom (optAtomS t.description)),
   ("status", .atom (.astr (statusStr t.status))),
   ("priority", .atom (.astr (priorityStr t.priority))),
   ("category", .atom (.astr (categoryStr t.category))),
   ("assignee", .atom (optAtomS t.assignee)),
   ("estimated_hours", .atom (optAtomF t.estimated_hours)),
   ("actual_hours", .atom (optAtomF t.actual_hours)),
   ("tags", .alist (t.tags.map .astr)),
   ("dependencies", .alist (t.dependencies.map (fun n => .aint n))),
   ("created_at", .atom (.astr (timeRepr t.created_at))),
   ("updated_at", .atom (optAtomT t.updated_at)),
   ("completed_at", .atom (optAtomT t.completed_at)),
   ("checksum", .atom (.astr t.checksum))]

/-- Summary statistics as built by `get_task_statistics`; the four
by-X breakdowns are insertion-ordered association lists like the
Python dicts they model. -/
structure Stats where
  total : Nat
  by_status : List (String × Nat)
  by_priority : List (String × Nat)
  by_category : List (String × Nat)
  by_assignee : List (String × Nat)
  completion_rate : Rat
  average_estimated_hours : Rat
  average_actual_hours : Rat
  overdue_tasks : Nat
  blocked_tasks : Nat
  deriving DecidableEq

/-- Global mutable state of the service: the `tasks` dict (insertion
order), the id counter, and the statistics cache cells. -/
structure StoreState where
  tasks : List Task
  counter : Nat
  analytics_cache : Option Stats
  cache_expiry : Option Time
  deriving DecidableEq

def initState : StoreState := ⟨[], 0, none, none⟩

inductive Err where
  | notFound
  | depNotFound (depId : Nat)
  | bulkLimit
  deriving DecidableEq

def StoreState.hasId (st : StoreState) (i : Nat) : Bool :=
  st.tasks.any (fun t => t.id == i)

/-! ### Request payloads and their pydantic validation -/

structure TaskCreate where
  title : String
  description : Option String := none
  priority : TaskPriority := .medium
  category : TaskCategory
  assignee : Option String := none
  estimated_hours : Option Rat := none
  tags : List String := []
  dependencies : List Nat := []
  deriving DecidableEq

structure TaskUpdate where
  title : Option String := none
  description : Option String := none
  status : Option TaskStatus := none
  priority : Option TaskPriority := none
  category : Option TaskCategory := none
  assignee : Option String := none
  estimated_hours : Option Rat := none
  actual_hours : Option Rat := none
  tags : Option (List String) := none
  dependencies : Option (List Nat) := none
  deriving DecidableEq

def optLenLe (o : Option String) (n : Nat) : Bool :=
  match o with
  | some s => s.length ≤ n
  | none => true

def optHoursRange (o : Option Rat) : Bool :=
  match o with
  | some q => 0 ≤ q && q ≤ 1000
  | none => true

/-- Pydantic validation of `TaskCreate` (field constraints and the
max-10-tags validator). -/
def validTaskCreate (d : TaskCreate) : Bool :=
  3 ≤ d.title.length && d.title.length ≤ 200 &&
  optLenLe d.description 2000 &&
  optLenLe d.assignee 100 &&
  optHoursRange d.estimated_hours &&
  d.tags.length ≤ 10

/-- Pydantic validation of `TaskUpdate` (note: `TaskUpdate` has no
tag-count validator in the source). -/
def validTaskUpdate (u : TaskUpdate) : Bool :=
  (match u.title with
   | some s => 3 ≤ s.length && s.length ≤ 200
   | none => true) &&
  optLenLe u.description 2000 &&
  optLenLe u.assignee 100 &&
  optHoursRange u.estimated_hours &&
  optHoursRange u.actual_hours

/-! ### Store operations -/

/-- Embedding of `create_task`: reject the first unknown dependency id,
otherwise increment the counter, build the task dict (status pending,
checksum computed over the dict with a placeholder checksum), and
append it to the store. -/
def create_task (d : TaskCreate) (now : Time) (st : StoreState) :
    Except Err (Task × StoreState) :=
  match d.dependencies.find? (fun dep => !(st.hasId dep)) with
  | some dep => .error (.depNotFound dep)
  | none =>
    let newId := st.counter + 1
    let t0 : Task :=
      { id := newId, title := d.title, description := d.description,
        status := .pending, priority := d.priority, category := d.category,
        assignee := d.assignee, estimated_hours := d.estimated_hours,
        actual_hours := none, tags := d.tags, dependencies := d.dependencies,
        created_at := now, updated_at := none, completed_at := none, checksum := "" }
    let t := { t0 with checksum := calculate_checksum (taskFieldMap t0) }
    .ok (t, { st with tasks := st.tasks ++ [t], counter := newId })

/-- Replace exactly the supplied fields of a task (Python's
`for field, value in update_data.items(): task[field] = value`). -/
def applyUpdate (u : TaskUpdate) (t : Task) : Task :=
  { t with
    title := u.title.getD t.title,
    description := (u.description.map some).getD t.description,
    status := u.status.getD t.status,
    priority := u.priority.getD t.priority,
    category := u.category.getD t.category,
    assignee := (u.assignee.map some).getD t.assignee,
    estimated_hours := (u.estimated_hours.map some).getD t.estimated_hours,
    actual_hours := (u.actual_hours.map some).getD t.actual_hours,
    tags := u.tags.getD t.tags,
    dependencies := u.dependencies.getD t.dependencies }

/-- The dependency validation of `update_task`: when dependencies are
supplied, the first entry that neither exists in the store nor equals
the task's own id (self-reference is permitted on update). -/
def badDepCheck (st : StoreState) (i : Nat) (u : TaskUpdate) : Option Nat :=
  match u.dependencies with
  | some ds => ds.find? (fun dep => !(st.hasId dep) && !(dep == i))
  | none => none

/-- Embedding of `update_task`: 404 on unknown id; if dependencies are
supplied each must exist or equal the task's own id; then the supplied
fields are written, `updated_at` is set, `completed_at` is set when the
supplied status is completed and it was previously null, and the
checksum is recomputed over the dict (which still carries the previous
checksum value at that point). -/
def update_task (i : Nat) (u : TaskUpdate) (now : Time) (st : StoreState) :
    Except Err (Task × StoreState) :=
  match st.tasks.find? (fun t => t.id == i) with
  | none => .error .notFound
  | some t =>
    match badDepCheck st i u with
    | some dep => .error (.depNotFound dep)
    | none =>
      let t1 := applyUpdate u t
      let t2 := { t1 with updated_at := some now }
      let t3 :=
        if u.status == some .completed && t2.completed_at == none then
          { t2 with completed_at := some now }
        else t2
      let t4 := { t3 with checksum := calculate_checksum (taskFieldMap t3) }
      .ok (t4, { st with tasks := st.tasks.map (fun x => if x.id == i then t4 else x) })

/-- Embedding of `delete_task`: 404 on unknown id; every task whose
dependencies list contains the id (the target itself included, exactly
as the Python list comprehension scans all of `tasks.values()`) has the
first occurrence removed (`list.remove`) and `updated_at` bumped; the
target is removed; `analytics_cache.clear()` empties the cache cell
(the expiry dict is left alone); the count of scanned dependents is
returned. -/
def delete_task (i : Nat) (now : Time) (st : StoreState) :
    Except Err (Nat × StoreState) :=
  if st.hasId i then
    let affected := (st.tasks.filter (fun t => t.dependencies.contains i)).length
    let pruned := st.tasks.map (fun t =>
      if t.dependencies.contains i then
        { t with dependencies := t.dependencies.erase i, updated_at := some now }
      else t)
    .ok (affected, { st with tasks := pruned.filter (fun t => !(t.id == i)),
                             analytics_cache := none })
  else .error .notFound

/-! ### Query engine -/

inductive SortBy where
  | created_at
  | priority
  | status
  | updated_at
  deriving DecidableEq

inductive SortOrder where
  | asc
  | desc
  deriving DecidableEq

/-- Query parameters of GET /tasks with their FastAPI defaults. -/
structure TasksQuery where
  status : Option TaskStatus := none
  priority : Option TaskPriority := none
  category : Option TaskCategory := none
  assignee : Option String := none
  tags : Option String := none
  sort_by : SortBy := .created_at
  order : SortOrder := .desc
  limit : Nat := 100
  offset : Nat := 0
  deriving DecidableEq

def priorityRank : TaskPriority → Nat
  | .low => 0
  | .medium => 1
  | .high => 2
  | .critical => 3

/-- Comparison on the sort key of `sort_by` ("x comes before y or
ties"); for `updated_at` it is only consulted on the success branch,
where every key is non-null (`getD 0` is never the deciding value). -/
def taskLeB (sb : SortBy) (x y : Task) : Bool :=
  match sb with
  | .priority => priorityRank x.priority ≤ priorityRank y.priority
  | .created_at => x.created_at ≤ y.created_at
  | .status => strLeB (statusStr x.status) (statusStr y.status)
  | .updated_at => x.updated_at.getD 0 ≤ y.updated_at.getD 0

/-- Python's stable sort with `reverse = (order == "desc")`: descending
order keeps the original relative order of equal keys, which is the
stable ascending sort of the flipped comparison. -/
def sortTasks (sb : SortBy) (ord : SortOrder) (l : List Task) : List Task :=
  match ord with
  | .asc => insertionSortB (fun a b => taskLeB sb a b) l
  | .desc => insertionSortB (fun a b => taskLeB sb b a) l

def passesTagFilter (s : String) (t : Task) : Bool :=
  ((s.splitOn ",").map String.trim).any (fun tag => t.tags.contains tag)

/-- The sequential filters of GET /tasks (Python skips a filter whose
parameter is falsy, hence the empty-string guards); depends only on the
filter parameters, not on sort/offset/limit. -/
def filteredTasks (q : TasksQuery) (st : StoreState) : List Task :=
  let f1 : List Task := match q.status with
    | some s => st.tasks.filter (fun t => t.status == s)
    | none => st.tasks
  let f2 := match q.priority with
    | some p => f1.filter (fun t => t.priority == p)
    | none => f1
  let f3 := match q.category with
    | some c => f2.filter (fun t => t.category == c)
    | none => f2
  let f4 := match q.assignee with
    | some a => if a = "" then f3 else f3.filter (fun t => t.assignee == some a)
    | none => f3
  match q.tags with
  | some s => if s = "" then f4 else f4.filter (passesTagFilter s)
  | none => f4

/-- Condition under which the `filtered_tasks.sort` call raises
`TypeError` (see the module comment): sorting by `updated_at` with at
least two filtered tasks of which at least one has a null key. -/
def sortRaises (q : TasksQuery) (st : StoreState) : Bool :=
  q.sort_by == .updated_at && decide (2 ≤ (filteredTasks q st).length) &&
    (filteredTasks q st).any (fun t => t.updated_at == none)

/-- Embedding of GET /tasks: filter, then sort — which raises under
`sortRaises` — then the slice `[offset : offset + limit]`. -/
def get_tasks (q : TasksQuery) (st : StoreState) : Except Unit (List Task) :=
  if sortRaises q st then
    .error ()
  else
    .ok (((sortTasks q.sort_by q.order (filteredTasks q st)).drop q.offset).take q.limit)

/-! ### Aggregation engine -/

/-- Increment a counter dict entry, inserting it at the end on first
occurrence, as `d[k] = d.get(k, 0) + 1` does on an insertion-ordered
Python dict. -/
def bump (m : List (String × Nat)) (k : String) : List (String × Nat) :=
  if m.any (fun e => e.1 == k) then
    m.map (fun e => if e.1 == k then (e.1, e.2 + 1) else e)
  else m ++ [(k, 1)]

def getCount (m : List (String × Nat)) (k : String) : Nat :=
  ((m.find? (fun e => e.1 == k)).map (fun e => e.2)).getD 0

def assigneeKey : Option String → String
  | some s => if s = "" then "unassigned" else s
  | none => "unassigned"

/-- Truthiness filter `if t[field]` on an optional float: keeps the
value exactly when it is non-null and nonzero. -/
def truthyHours : Option Rat → Option Rat
  | some v => if v = 0 then none else some v
  | none => none

/-- Floor of a rational as an integer (numerator floor-divided by denominator). -/
def ratFloorI (q : Rat) : Int := Int.fdiv q.num q.den

/-- Python's round(x, 2): round half to even at two decimal places,
on the exact rational value. -/
def pyRound2 (q : Rat) : Rat :=
  let y := q * 100
  let f := ratFloorI y
  let frac := y - (f : Rat)
  let r : Int :=
    if frac < 1 / 2 then f
    else if 1 / 2 < frac then f + 1
    else if f % 2 = 0 then f else f + 1
  (r : Rat) / 100

/-- Embedding of the statistics computation in `get_task_statistics`
(the part below the cache check). -/
def computeStats (ts : List Task) : Stats :=
  let byStatus := ts.foldl (fun m t => bump m (statusStr t.status)) []
  let byPriority := ts.foldl (fun m t => bump m (priorityStr t.priority)) []
  let byCategory := ts.foldl (fun m t => bump m (categoryStr t.category)) []
  let byAssignee := ts.foldl (fun m t => bump m (assigneeKey t.assignee)) []
  let total := ts.length
  let completed := getCount byStatus "completed"
  let est := ts.filterMap (fun t => truthyHours t.estimated_hours)
  let act := ts.filterMap (fun t => truthyHours t.actual_hours)
  { total := total,
    by_status := byStatus,
    by_priority := byPriority,
    by_category := byCategory,
    by_assignee := byAssignee,
    completion_rate := if 0 < total then pyRound2 ((completed : Rat) / (total : Rat) * 100) else 0,
    average_estimated_hours :=
      if 0 < est.length then pyRound2 (est.sum / (est.length : Rat)) else 0,
    average_actual_hours :=
      if 0 < act.length then pyRound2 (act.sum / (act.length : Rat)) else 0,
    overdue_tasks := 0,
    blocked_tasks := getCount byStatus "blocked" }

def statsRecompute (now : Time) (st : StoreState) : Stats × StoreState :=
  let s := computeStats st.tasks
  (s, { st with analytics_cache := some s, cache_expiry := some (now + 60) })

/-- Embedding of GET /tasks/stats/summary: serve the cached object when
both cache cells are populated and the expiry is in the future,
otherwise recompute and cache for 60 seconds. -/
def get_task_statistics (now : Time) (st : StoreState) : Stats × StoreState :=
  match st.analytics_cache, st.cache_expiry with
  | some s, some e => if now < e then (s, st) else statsRecompute now st
  | _, _ => statsRecompute now st

/-! ### Bulk create -/

/-- The sequential loop of `bulk_create_tasks`: each item goes through
`create_task`; the first failure propagates, leaving the store as the
previous iterations left it. -/
def runCreates (now : Time) : List TaskCreate → StoreState →
    Except Err (List Task) × StoreState
  | [], st => (.ok [], st)
  | d :: rest, st =>
    match create_task d now st with
    | .error e => (.error e, st)
    | .ok (t, st1) =>
      match runCreates now rest st1 with
      | (.ok ts, st2) => (.ok (t :: ts), st2)
      | (.error e, st2) => (.error e, st2)

/-- Embedding of POST /tasks/bulk: reject batches over 100 items before
creating anything, otherwise run the sequential create loop. -/
def bulk_create_tasks (ds : List TaskCreate) (now : Time) (st : StoreState) :
    Except Err (List Task) × StoreState :=
  if 100 < ds.length then (.error .bulkLimit, st) else runCreates now ds st

/-! ### Reachable states -/

/-- One observable state transition of the service (reads that do not
change state, like GET /tasks and GET /tasks/id, induce no step;
GET /tasks/stats/summary can write the cache, so it is a step). -/
inductive Step : StoreState → StoreState → Prop where
  | create (d : TaskCreate) (now : Time) (t : Task) (st st' : StoreState) :
      validTaskCreate d = true → create_task d now st = .ok (t, st') → Step st st'
  | update (i : Nat) (u : TaskUpdate) (now : Time) (t : Task) (st st' : StoreState) :
      validTaskUpdate u = true → update_task i u now st = .ok (t, st') → Step st st'
  | delete (i : Nat) (now : Time) (n : Nat) (st st' : StoreState) :
      delete_task i now st = .ok (n, st') → Step st st'
  | stats (now : Time) (s : Stats) (st st' : StoreState) :
      get_task_statistics now st = (s, st') → Step st st'
  | bulk (ds : List TaskCreate) (now : Time) (r : Except Err (List Task)) (st st' : StoreState) :
      (∀ d ∈ ds, validTaskCreate d = true) → bulk_create_tasks ds now st = (r, st') → Step st st'

/-- States reachable from the empty store. -/
inductive Reachable : StoreState → Prop where
  | init : Reachable initState
  | step {st st' : StoreState} : Reachable st → Step st st' → Reachable st'

/-- A create or single-item update step (the mutations POST /tasks and
PUT /tasks/id). -/
inductive CUStep : StoreState → StoreState → Prop where
  | create (d : TaskCreate) (now : Time) (t : Task) (st st' : StoreState) :
      validTaskCreate d = true → create_task d now st = .ok (t, st') → CUStep st st'
  | update (i : Nat) (u : TaskUpdate) (now : Time) (t : Task) (st st' : StoreState) :
      validTaskUpdate u = true → update_task i u now st = .ok (t, st') → CUStep st st'

end App

namespace App

/-! ### Helper lemmas about the stable insertion sort -/

theorem orderedInsertB_perm {α : Type} (r : α → α → Bool) (a : α) (l : List α) :
    List.Perm (orderedInsertB r a l) (a :: l) := by
  induction l with
  | nil => exact List.Perm.refl _
  | cons b t ih =>
    by_cases h : r a b
    · simp [orderedInsertB, h]
    · simp only [orderedInsertB, h, if_neg, Bool.false_eq_true, not_false_iff]
      exact (ih.cons b).trans (List.Perm.swap a b t)

theorem insertionSortB_perm {α : Type} (r : α → α → Bool) (l : List α) :
    List.Perm (insertionSortB r l) l := by
  induction l with
  | nil => exact List.Perm.refl _
  | cons a t ih =>
    exact (orderedInsertB_perm r a (insertionSortB r t)).trans (ih.cons a)

theorem insertionSortB_length {α : Type} (r : α → α → Bool) (l : List α) :
    (insertionSortB r l).length = l.length :=
  (insertionSortB_perm r l).length_eq

theorem orderedInsertB_pairwise {α : Type} (r : α → α → Bool)
    (total : ∀ a b, r a b = true ∨ r b a = true)
    (htrans : ∀ a b c, r a b = true → r b c = true → r a c = true)
    (a : α) (l : List α) (hl : l.Pairwise (fun x y => r x y = true)) :
    (orderedInsertB r a l).Pairwise (fun x y => r x y = true) := by
  induction l with
  | nil => simp [orderedInsertB]
  | cons b t ih =>
    rcases List.pairwise_cons.mp hl with ⟨hb, ht⟩
    by_cases h : r a b
    · simp only [orderedInsertB, h, if_pos]
      refine List.pairwise_cons.mpr ⟨?_, hl⟩
      intro x hx
      rcases List.mem_cons.mp hx with hx | hx
      · exact hx ▸ h
      · exact htrans a b x h (hb x hx)
    · simp only [orderedInsertB, h, if_neg, Bool.false_eq_true, not_false_iff]
      refine List.pairwise_cons.mpr ⟨?_, ih ht⟩
      intro x hx
      rcases List.mem_cons.mp ((orderedInsertB_perm r a t).mem_iff.mp hx) with hx1 | hx1
      · subst hx1
        rcases total x b with h1 | h1
        · exact absurd h1 h
        · exact h1
      · exact hb x hx1

theorem insertionSortB_pairwise {α : Type} (r : α → α → Bool)
    (total : ∀ a b, r a b = true ∨ r b a = true)
    (htrans : ∀ a b c, r a b = true → r b c = true → r a c = true)
    (l : List α) :
    (insertionSortB r l).Pairwise (fun x y => r x y = true) := by
  induction l with
  | nil => simp [insertionSortB]
  | cons a t ih => exact orderedInsertB_pairwise r total htrans a (insertionSortB r t) ih

/-! ### The string order used by json.dumps key sorting -/

theorem charListLe_total : ∀ x y, charListLe x y = true ∨ charListLe y x = true := by
  intro x
  induction x with
  | nil => intro y; left; rfl
  | cons a as ih =>
    intro y
    cases y with
    | nil => right; rfl
    | cons b bs =>
      by_cases h1 : a < b
      · left; simp [charListLe, h1]
      · by_cases h2 : b < a
        · right; simp [charListLe, h2]
        · rcases ih bs with h | h
          · left; simp [charListLe, h1, h2, h]
          · right; simp [charListLe, h1, h2, h]

theorem charListLe_trans :
    ∀ x y z, charListLe x y = true → charListLe y z = true → charListLe x z = true := by
  intro x
  induction x with
  | nil => intro y z _ _; rfl
  | cons a as ih =>
    intro y z h1 h2
    cases y with
    | nil => simp [charListLe] at h1
    | cons b bs =>
      cases z with
      | nil => simp [charListLe] at h2
      | cons c cs =>
        by_cases hab : a < b
        · by_cases hbc : b < c
          · simp [charListLe, lt_trans hab hbc]
          · by_cases hcb : c < b
            · simp [charListLe, hbc, hcb] at h2
            · have hbc' : b = c := le_antisymm (le_of_not_lt hcb) (le_of_not_lt hbc)
              simp [charListLe, hbc' ▸ hab]
        · by_cases hba : b < a
          · simp [charListLe, hab, hba] at h1
          · have hab' : a = b := le_antisymm (le_of_not_lt hba) (le_of_not_lt hab)
            subst hab'
            by_cases hbc : a < c
            · simp [charListLe, hbc]
            · by_cases hcb : c < a
              · simp [charListLe, hbc, hcb] at h2
              · simp only [charListLe, if_neg hab, if_neg hba] at h1
                simp only [charListLe, if_neg hbc, if_neg hcb] at h2 ⊢
                exact ih bs cs h1 h2

theorem charListLe_antisymm :
    ∀ x y, charListLe x y = true → charListLe y x = true → x = y := by
  intro x
  induction x with
  | nil =>
    intro y _ h2
    cases y with
    | nil => rfl
    | cons b bs => simp [charListLe] at h2
  | cons a as ih =>
    intro y h1 h2
    cases y with
    | nil => simp [charListLe] at h1
    | cons b bs =>
      by_cases hab : a < b
      · simp [charListLe, hab, lt_asymm hab] at h2
      · by_cases hba : b < a
        · simp [charListLe, hab, hba] at h1
        · have hab' : a = b := le_antisymm (le_of_not_lt hba) (le_of_not_lt hab)
          subst hab'
          have := ih bs (by simpa [charListLe, hab, hba] using h1)
            (by simpa [charListLe, hab, hba] using h2)
          rw [this]

theorem string_data_eq {s t : String} (h : s.data = t.data) : s = t := by
  cases s
  cases t
  exact congrArg String.mk h

theorem strLeB_total (a b : String) : strLeB a b = true ∨ strLeB b a = true :=
  charListLe_total a.data b.data

theorem strLeB_trans (a b c : String) (h1 : strLeB a b = true) (h2 : strLeB b c = true) :
    strLeB a c = true :=
  charListLe_trans a.data b.data c.data h1 h2

theorem strLeB_antisymm (a b : String) (h1 : strLeB a b = true) (h2 : strLeB b a = true) :
    a = b :=
  string_data_eq (charListLe_antisymm a.data b.data h1 h2)

end App

namespace App

theorem pairKeyLe_total (x y : String × PyVal) : pairKeyLe x y = true ∨ pairKeyLe y x = true :=
  strLeB_total x.1 y.1

theorem pairKeyLe_trans (x y z : String × PyVal) (h1 : pairKeyLe x y = true)
    (h2 : pairKeyLe y z = true) : pairKeyLe x z = true :=
  strLeB_trans x.1 y.1 z.1 h1 h2

/-- On dicts (no duplicate keys), the key-sorted order is unique, so any
two permutations of the same dict sort identically. -/
theorem sortPairs_eq_of_perm (m1 m2 : List (String × PyVal)) (hperm : List.Perm m1 m2)
    (hnd : (m1.map Prod.fst).Nodup) :
    insertionSortB pairKeyLe m1 = insertionSortB pairKeyLe m2 := by
  have p1 := insertionSortB_perm pairKeyLe m1
  have p2 := insertionSortB_perm pairKeyLe m2
  have hp : List.Perm (insertionSortB pairKeyLe m1) (insertionSortB pairKeyLe m2) :=
    p1.trans (hperm.trans p2.symm)
  have s1 := insertionSortB_pairwise pairKeyLe pairKeyLe_total pairKeyLe_trans m1
  have s2 := insertionSortB_pairwise pairKeyLe pairKeyLe_total pairKeyLe_trans m2
  have nd1 : ((insertionSortB pairKeyLe m1).map Prod.fst).Nodup :=
    ((p1.map Prod.fst).symm).nodup hnd
  have nd2 : ((insertionSortB pairKeyLe m2).map Prod.fst).Nodup :=
    ((p2.map Prod.fst).symm).nodup ((hperm.map Prod.fst).nodup hnd)
  have ne1 : (insertionSortB pairKeyLe m1).Pairwise (fun x y => x.1 ≠ y.1) :=
    List.pairwise_map.mp nd1
  have ne2 : (insertionSortB pairKeyLe m2).Pairwise (fun x y => x.1 ≠ y.1) :=
    List.pairwise_map.mp nd2
  haveI : IsAntisymm (String × PyVal) (fun x y => pairKeyLe x y = true ∧ x.1 ≠ y.1) :=
    ⟨fun a b h1 h2 => absurd (strLeB_antisymm a.1 b.1 h1.1 h2.1) h1.2⟩
  exact List.eq_of_perm_of_sorted hp (s1.and ne1) (s2.and ne2)

theorem calculate_checksum_perm (m1 m2 : List (String × PyVal)) (hperm : List.Perm m1 m2)
    (hnd : (m1.map Prod.fst).Nodup) :
    calculate_checksum m1 = calculate_checksum m2 := by
  unfold calculate_checksum pyJsonDumps
  rw [sortPairs_eq_of_perm m1 m2 hperm hnd]

theorem wordHex_length (w : Nat) : (wordHex w).length = 8 := rfl

theorem sha256hexChars_length (msg : List Nat) : (sha256hexChars msg).length = 64 := by
  simp [sha256hexChars, wordHex]

theorem getD_mem_of_lt {α : Type} (l : List α) (n : Nat) (d : α) (h : n < l.length) :
    l.getD n d ∈ l := by
  rw [List.getD_eq_getElem?_getD, List.getElem?_eq_getElem h]
  exact List.getElem_mem h

theorem hexDigit_mem (n : Nat) : hexDigit n ∈ hexDigitChars :=
  getD_mem_of_lt hexDigitChars (n % 16) '0' (Nat.mod_lt n (by decide))

theorem wordHex_subset (w : Nat) : ∀ c ∈ wordHex w, c ∈ hexDigitChars := by
  intro c hc
  simp only [wordHex, List.mem_cons, List.not_mem_nil, or_false] at hc
  rcases hc with h | h | h | h | h | h | h | h <;> exact h ▸ hexDigit_mem _

theorem sha256hexChars_subset (msg : List Nat) :
    ∀ c ∈ sha256hexChars msg, c ∈ hexDigitChars := by
  intro c hc
  simp only [sha256hexChars, List.mem_append] at hc
  rcases hc with ((((((h | h) | h) | h) | h) | h) | h) | h <;> exact wordHex_subset _ c h

/-- C7: the checksum calculator is a deterministic, key-order-independent
function of the field values — any two permutations of the same field map
(dicts have pairwise distinct keys) produce the same checksum — and its
output is a fixed-length string of exactly 16 (hence at least 16) hex
characters. -/
theorem C7_checksum_canonical (m1 m2 : List (String × PyVal))
    (hperm : List.Perm m1 m2) (hnd : (m1.map Prod.fst).Nodup) :
    calculate_checksum m1 = calculate_checksum m2 ∧
    (calculate_checksum m1).length = 16 ∧
    (∀ c ∈ (calculate_checksum m1).data, c ∈ hexDigitChars) := by
  refine ⟨calculate_checksum_perm m1 m2 hperm hnd, ?_, ?_⟩
  · show (String.mk ((sha256hexChars (utf8Bytes (pyJsonDumps m1))).take 16)).length = 16
    have h1 : (String.mk ((sha256hexChars (utf8Bytes (pyJsonDumps m1))).take 16)).length =
        ((sha256hexChars (utf8Bytes (pyJsonDumps m1))).take 16).length := rfl
    rw [h1, List.length_take, sha256hexChars_length]
    rfl
  · intro c hc
    have hc' : c ∈ (sha256hexChars (utf8Bytes (pyJsonDumps m1))).take 16 := hc
    exact sha256hexChars_subset _ c (List.take_subset _ _ hc')

/-- Witness for C7 at a concrete two-field map and its key-swapped permutation. -/
theorem C7_checksum_canonical_witness :
    calculate_checksum [("b", PyVal.atom (PyAtom.aint 1)), ("a", PyVal.atom PyAtom.anone)] =
      calculate_checksum [("a", PyVal.atom PyAtom.anone), ("b", PyVal.atom (PyAtom.aint 1))] ∧
    (calculate_checksum [("b", PyVal.atom (PyAtom.aint 1)), ("a", PyVal.atom PyAtom.anone)]).length
      = 16 ∧
    (∀ c ∈ (calculate_checksum
        [("b", PyVal.atom (PyAtom.aint 1)), ("a", PyVal.atom PyAtom.anone)]).data,
      c ∈ hexDigitChars) :=
  C7_checksum_canonical _ _ (by decide) (by decide)

end App

namespace App

/-! ### Shape lemmas: what each successful operation does to the state -/

theorem create_task_ok {d : TaskCreate} {now : Time} {st : StoreState} {t : Task}
    {st' : StoreState} (h : create_task d now st = .ok (t, st')) :
    st'.tasks = st.tasks ++ [t] ∧ t.id = st.counter + 1 ∧ st'.counter = st.counter + 1 ∧
    t.status = TaskStatus.pending ∧ t.updated_at = none ∧ t.completed_at = none ∧
    t.actual_hours = none ∧
    st'.analytics_cache = st.analytics_cache ∧ st'.cache_expiry = st.cache_expiry ∧
    t.created_at = now ∧ t.title = d.title ∧ t.estimated_hours = d.estimated_hours ∧
    t.dependencies = d.dependencies := by
  unfold create_task at h
  split at h
  · simp at h
  · simp only [Except.ok.injEq, Prod.mk.injEq] at h
    obtain ⟨ht, hst'⟩ := h
    subst ht
    subst hst'
    exact ⟨rfl, rfl, rfl, rfl, rfl, rfl, rfl, rfl, rfl, rfl, rfl, rfl, rfl⟩

theorem update_task_ok {i : Nat} {u : TaskUpdate} {now : Time} {st : StoreState} {t' : Task}
    {st' : StoreState} (h : update_task i u now st = .ok (t', st')) :
    ∃ t, st.tasks.find? (fun x => x.id == i) = some t ∧
      st'.tasks = st.tasks.map (fun x => if x.id == i then t' else x) ∧
      st'.counter = st.counter ∧ st'.analytics_cache = st.analytics_cache ∧
      st'.cache_expiry = st.cache_expiry ∧
      t'.id = t.id ∧
      t'.completed_at = (if u.status == some TaskStatus.completed && t.completed_at == none
        then some now else t.completed_at) ∧
      t'.updated_at = some now ∧
      t'.status = u.status.getD t.status := by
  unfold update_task at h
  split at h
  · simp at h
  case _ t hfind =>
    split at h
    · simp at h
    · simp only [Except.ok.injEq, Prod.mk.injEq] at h
      obtain ⟨ht, hst'⟩ := h
      subst ht
      subst hst'
      refine ⟨t, hfind, rfl, rfl, rfl, rfl, ?_, ?_, ?_, ?_⟩ <;>
        (by_cases hc : (u.status == some TaskStatus.completed && t.completed_at == none) = true <;>
          simp [applyUpdate, hc])

theorem delete_task_ok {i : Nat} {now : Time} {st : StoreState} {n : Nat} {st' : StoreState}
    (h : delete_task i now st = .ok (n, st')) :
    st.hasId i = true ∧
    n = (st.tasks.filter (fun t => t.dependencies.contains i)).length ∧
    st'.tasks = (st.tasks.map (fun t =>
      if t.dependencies.contains i then
        { t with dependencies := t.dependencies.erase i, updated_at := some now }
      else t)).filter (fun t => !(t.id == i)) ∧
    st'.counter = st.counter ∧ st'.analytics_cache = none ∧
    st'.cache_expiry = st.cache_expiry := by
  unfold delete_task at h
  split at h
  case isTrue hid =>
    simp only [Except.ok.injEq, Prod.mk.injEq] at h
    obtain ⟨hn, hst'⟩ := h
    subst hn
    subst hst'
    exact ⟨hid, rfl, rfl, rfl, rfl, rfl⟩
  case isFalse => simp at h

theorem get_task_statistics_shape (now : Time) (st : StoreState) :
    (get_task_statistics now st).2.tasks = st.tasks ∧
    (get_task_statistics now st).2.counter = st.counter := by
  unfold get_task_statistics statsRecompute
  rcases hc : st.analytics_cache with _ | s <;> rcases he : st.cache_expiry with _ | e <;>
    simp
  by_cases hlt : now < e
  · simp [hlt]
  · simp [hlt]

end App

namespace App

/-! ### Store invariants along reachable states -/

/-- Every stored id is positive and at most the counter, and ids are
pairwise distinct (the store models a dict keyed by id). -/
def StoreInv (st : StoreState) : Prop :=
  (∀ t ∈ st.tasks, 1 ≤ t.id ∧ t.id ≤ st.counter) ∧ (st.tasks.map Task.id).Nodup

theorem storeInv_init : StoreInv initState := by
  constructor
  · intro t ht
    simp [initState] at ht
  · simp [initState]

theorem storeInv_create {d : TaskCreate} {now : Time} {st : StoreState} {t : Task}
    {st' : StoreState} (h : create_task d now st = .ok (t, st')) (hinv : StoreInv st) :
    StoreInv st' := by
  obtain ⟨htasks, hid, hcounter, _⟩ := create_task_ok h
  constructor
  · intro x hx
    rw [htasks] at hx
    rcases List.mem_append.mp hx with hx | hx
    · have hb := hinv.1 x hx
      omega
    · simp only [List.mem_singleton] at hx
      subst hx
      omega
  · rw [htasks, List.map_append]
    refine List.Nodup.append hinv.2 (by simp) ?_
    intro a ha hb
    simp only [List.map_cons, List.map_nil, List.mem_singleton] at hb
    rcases List.mem_map.mp ha with ⟨y, hy, hya⟩
    have := hinv.1 y hy
    omega

theorem find?_id_mem {st : StoreState} {i : Nat} {t : Task}
    (hfind : st.tasks.find? (fun x => x.id == i) = some t) : t ∈ st.tasks ∧ t.id = i :=
  ⟨List.mem_of_find?_eq_some hfind, by
    have := List.find?_some hfind
    simpa using this⟩

theorem storeInv_update {i : Nat} {u : TaskUpdate} {now : Time} {st : StoreState} {t' : Task}
    {st' : StoreState} (h : update_task i u now st = .ok (t', st')) (hinv : StoreInv st) :
    StoreInv st' := by
  obtain ⟨t, hfind, htasks, hcnt, _, _, hid, _, _, _⟩ := update_task_ok h
  obtain ⟨htmem, htid⟩ := find?_id_mem hfind
  have hmap : st'.tasks.map Task.id = st.tasks.map Task.id := by
    rw [htasks, List.map_map]
    apply List.map_congr_left
    intro x hx
    by_cases hyi : (x.id == i) = true
    · simp only [Function.comp_apply, if_pos hyi]
      have : x.id = i := by simpa using hyi
      rw [hid, htid, this]
    · simp only [Function.comp_apply, if_neg hyi]
  constructor
  · intro x hx
    rw [htasks] at hx
    rcases List.mem_map.mp hx with ⟨y, hy, hxy⟩
    by_cases hyi : (y.id == i) = true
    · rw [if_pos hyi] at hxy
      subst hxy
      rw [hcnt, hid]
      exact hinv.1 t htmem
    · rw [if_neg hyi] at hxy
      subst hxy
      rw [hcnt]
      exact hinv.1 y hy
  · rw [hmap]
    exact hinv.2

theorem storeInv_delete {i : Nat} {now : Time} {st : StoreState} {n : Nat} {st' : StoreState}
    (h : delete_task i now st = .ok (n, st')) (hinv : StoreInv st) : StoreInv st' := by
  obtain ⟨_, _, htasks, hcnt, _, _⟩ := delete_task_ok h
  have hmapid : (st.tasks.map (fun t =>
      if t.dependencies.contains i then
        { t with dependencies := t.dependencies.erase i, updated_at := some now }
      else t)).map Task.id = st.tasks.map Task.id := by
    rw [List.map_map]
    apply List.map_congr_left
    intro x hx
    by_cases hxi : i ∈ x.dependencies
    · simp [hxi]
    · simp [hxi]
  constructor
  · intro x hx
    rw [htasks] at hx
    have hx1 := (List.mem_filter.mp hx).1
    rcases List.mem_map.mp hx1 with ⟨y, hy, hxy⟩
    have hyb := hinv.1 y hy
    rw [hcnt]
    by_cases hyi : i ∈ y.dependencies
    · rw [if_pos (by simpa using hyi)] at hxy
      subst hxy
      exact hyb
    · rw [if_neg (by simpa using hyi)] at hxy
      subst hxy
      exact hyb
  · rw [htasks]
    have hsub : ((st.tasks.map (fun t =>
        if t.dependencies.contains i then
          { t with dependencies := t.dependencies.erase i, updated_at := some now }
        else t)).filter (fun t => !(t.id == i))).map Task.id |>.Sublist
        (st.tasks.map Task.id) := by
      rw [← hmapid]
      exact (List.filter_sublist _).map Task.id
    exact hinv.2.sublist hsub

theorem runCreates_snd_eq {now : Time} {d : TaskCreate} {rest : List TaskCreate}
    {st : StoreState} {t : Task} {st1 : StoreState}
    (hc : create_task d now st = .ok (t, st1)) :
    (runCreates now (d :: rest) st).2 = (runCreates now rest st1).2 := by
  conv_lhs => unfold runCreates
  rw [hc]
  dsimp only
  cases hr : runCreates now rest st1 with
  | mk r st2 =>
    cases r with
    | ok ts => rfl
    | error e => rfl

theorem runCreates_counter_le {now : Time} (ds : List TaskCreate) (st : StoreState) :
    st.counter ≤ (runCreates now ds st).2.counter := by
  induction ds generalizing st with
  | nil => exact le_refl _
  | cons d rest ih =>
    cases hc : create_task d now st with
    | error e =>
      unfold runCreates
      rw [hc]
    | ok p =>
      obtain ⟨t, st1⟩ := p
      obtain ⟨_, _, hcnt, _⟩ := create_task_ok hc
      rw [runCreates_snd_eq hc]
      have := ih st1
      omega

theorem runCreates_inv {now : Time} (ds : List TaskCreate) (st : StoreState)
    (hinv : StoreInv st) : StoreInv (runCreates now ds st).2 := by
  induction ds generalizing st with
  | nil => exact hinv
  | cons d rest ih =>
    cases hc : create_task d now st with
    | error e =>
      unfold runCreates
      rw [hc]
      exact hinv
    | ok p =>
      obtain ⟨t, st1⟩ := p
      rw [runCreates_snd_eq hc]
      exact ih st1 (storeInv_create hc hinv)

theorem storeInv_stats {now : Time} {st st' : StoreState} {s : Stats}
    (h : get_task_statistics now st = (s, st')) (hinv : StoreInv st) : StoreInv st' := by
  have hsh := get_task_statistics_shape now st
  rw [h] at hsh
  exact ⟨fun t ht => hsh.2 ▸ hinv.1 t (hsh.1 ▸ ht), by rw [hsh.1]; exact hinv.2⟩

theorem storeInv_step {st st' : StoreState} (h : Step st st') (hinv : StoreInv st) :
    StoreInv st' := by
  cases h with
  | create d now t st st' hv hok => exact storeInv_create hok hinv
  | update i u now t st st' hv hok => exact storeInv_update hok hinv
  | delete i now n st st' hok => exact storeInv_delete hok hinv
  | stats now s st st' hok => exact storeInv_stats hok hinv
  | bulk ds now r st st' hv hok =>
    unfold bulk_create_tasks at hok
    split at hok
    · have : st' = st := by
        have := congrArg Prod.snd hok
        simpa using this.symm
      rw [this]
      exact hinv
    · have : st' = (runCreates now ds st).2 := by
        have := congrArg Prod.snd hok
        simpa using this.symm
      rw [this]
      exact runCreates_inv ds st hinv

theorem reachable_storeInv {st : StoreState} (h : Reachable st) : StoreInv st := by
  induction h with
  | init => exact storeInv_init
  | step hr hs ih => exact storeInv_step hs ih

theorem step_counter_le {st st' : StoreState} (h : Step st st') : st.counter ≤ st'.counter := by
  cases h with
  | create d now t st st' hv hok =>
    obtain ⟨_, _, hcnt, _⟩ := create_task_ok hok
    omega
  | update i u now t st st' hv hok =>
    obtain ⟨_, _, _, hcnt, _⟩ := update_task_ok hok
    omega
  | delete i now n st st' hok =>
    obtain ⟨_, _, _, hcnt, _⟩ := delete_task_ok hok
    omega
  | stats now s st st' hok =>
    have hsh := (get_task_statistics_shape now st).2
    rw [hok] at hsh
    simp only at hsh
    omega
  | bulk ds now r st st' hv hok =>
    unfold bulk_create_tasks at hok
    split at hok
    · have hst : st' = st := by
        have := congrArg Prod.snd hok
        simpa using this.symm
      rw [hst]
    · have hs : st' = (runCreates now ds st).2 := by
        have := congrArg Prod.snd hok
        simpa using this.symm
      rw [hs]
      exact runCreates_counter_le ds st

end App

namespace App

theorem eq_of_mem_of_id_eq {l : List Task} (hnd : (l.map Task.id).Nodup)
    {a b : Task} (ha : a ∈ l) (hb : b ∈ l) (h : b.id = a.id) : b = a :=
  List.inj_on_of_nodup_map hnd hb ha h

theorem runCreates_mem {now : Time} (ds : List TaskCreate) (st : StoreState) {a : Task}
    (ha : a ∈ st.tasks) : a ∈ (runCreates now ds st).2.tasks := by
  induction ds generalizing st with
  | nil => exact ha
  | cons d rest ih =>
    cases hc : create_task d now st with
    | error e =>
      unfold runCreates
      rw [hc]
      exact ha
    | ok p =>
      obtain ⟨t, st1⟩ := p
      obtain ⟨htasks, _⟩ := create_task_ok hc
      rw [runCreates_snd_eq hc]
      exact ih st1 (by rw [htasks]; exact List.mem_append_left _ ha)

/-- C6: a successful create returns a task with status `pending` and
null `updated_at`, `completed_at` and `actual_hours`, whose id is the
incremented counter; on every reachable state the fresh id strictly
exceeds every id ever stored (ids start at 1 and the counter never
decreases under any operation, so ids are never reused, even after a
deletion). -/
theorem C6_create_defaults_and_ids :
    (∀ st d now t st', Reachable st → validTaskCreate d = true →
      create_task d now st = .ok (t, st') →
      t.status = TaskStatus.pending ∧ t.updated_at = none ∧ t.completed_at = none ∧
      t.actual_hours = none ∧ t.id = st.counter + 1 ∧ st'.counter = t.id ∧ 1 ≤ t.id ∧
      (∀ u ∈ st.tasks, u.id < t.id)) ∧
    (∀ st st', Step st st' → st.counter ≤ st'.counter) ∧
    initState.counter = 0 := by
  refine ⟨?_, fun st st' h => step_counter_le h, rfl⟩
  intro st d now t st' hreach hvalid hok
  obtain ⟨htasks, hid, hcnt, hstatus, hupd, hcomp, hact, _⟩ := create_task_ok hok
  have hinv := reachable_storeInv hreach
  refine ⟨hstatus, hupd, hcomp, hact, hid, by omega, by omega, ?_⟩
  intro u hu
  have := (hinv.1 u hu).2
  omega

/-- A task filled with default-like values, used only to name the result
of a concrete successful operation in witnesses. -/
def blankTask : Task :=
  { id := 0, title := "", description := none, status := TaskStatus.pending,
    priority := TaskPriority.medium, category := TaskCategory.development,
    assignee := none, estimated_hours := none, actual_hours := none, tags := [],
    dependencies := [], created_at := 0, updated_at := none, completed_at := none,
    checksum := "" }

def okOr (r : Except Err (Task × StoreState)) (fb : Task × StoreState) : Task × StoreState :=
  match r with
  | .ok p => p
  | .error _ => fb

def w6d : TaskCreate := { title := "abc", category := TaskCategory.development }

def w6t : Task := (okOr (create_task w6d 0 initState) (blankTask, initState)).1

def w6st : StoreState := (okOr (create_task w6d 0 initState) (blankTask, initState)).2

/-- Witness for C6 at the first create on the empty store. -/
theorem C6_create_defaults_and_ids_witness :
    Reachable initState ∧ validTaskCreate w6d = true ∧
    create_task w6d 0 initState = .ok (w6t, w6st) ∧
    (w6t.status = TaskStatus.pending ∧ w6t.updated_at = none ∧ w6t.completed_at = none ∧
      w6t.actual_hours = none ∧ w6t.id = initState.counter + 1 ∧ w6st.counter = w6t.id ∧
      1 ≤ w6t.id ∧ (∀ u ∈ initState.tasks, u.id < w6t.id)) :=
  ⟨Reachable.init, by decide, by rfl,
    C6_create_defaults_and_ids.1 initState w6d 0 w6t w6st Reachable.init (by decide) (by rfl)⟩

end App

namespace App

/-- C5: `update_task` writes `completed_at = now` exactly when the
supplied status is `completed` and `completed_at` was previously null;
in every other case it leaves `completed_at` unchanged.  Moreover no
observable state transition ever resets a non-null `completed_at`: a
task surviving any step keeps its completion timestamp. -/
theorem C5_completed_at_once :
    (∀ st i u now t' st' t, update_task i u now st = .ok (t', st') →
      st.tasks.find? (fun x => x.id == i) = some t →
      ((u.status = some TaskStatus.completed ∧ t.completed_at = none →
          t'.completed_at = some now) ∧
       ((u.status = some TaskStatus.completed ∧ t.completed_at = none → False) →
          t'.completed_at = t.completed_at))) ∧
    (∀ st st', Reachable st → Step st st' →
      ∀ a ∈ st.tasks, ∀ b ∈ st'.tasks, b.id = a.id →
        ∀ c, a.completed_at = some c → b.completed_at = some c) := by
  constructor
  · intro st i u now t' st' t hok hfind
    obtain ⟨t0, hfind0, _, _, _, _, _, hcomp, _, _⟩ := update_task_ok hok
    rw [hfind] at hfind0
    have ht0 : t0 = t := (Option.some.injEq _ _).mp hfind0.symm
    subst ht0
    constructor
    · intro ⟨hst, hcn⟩
      rw [hcomp, hst, hcn]
      simp
    · intro hneg
      rw [hcomp]
      by_cases h1 : u.status = some TaskStatus.completed
      · by_cases h2 : t0.completed_at = none
        · exact absurd ⟨h1, h2⟩ hneg
        · rcases Option.ne_none_iff_exists'.mp h2 with ⟨c, hc⟩
          rw [h1, hc]
          simp
      · have : (u.status == some TaskStatus.completed) = false := by
          simpa using h1
        rw [this]
        simp
  · intro st st' hreach hstep a ha b hb hid c hc
    have hinv := reachable_storeInv hreach
    cases hstep with
    | create d now t st st' hv hok =>
      obtain ⟨htasks, hid2, _, _, _, _, _⟩ := create_task_ok hok
      rw [htasks] at hb
      rcases List.mem_append.mp hb with hb1 | hb1
      · rw [eq_of_mem_of_id_eq hinv.2 ha hb1 hid]
        exact hc
      · simp only [List.mem_singleton] at hb1
        subst hb1
        have := (hinv.1 a ha).2
        omega
    | update i u now t' st st' hv hok =>
      obtain ⟨t0, hfind, htasks, _, _, _, hid', hcomp', _, _⟩ := update_task_ok hok
      rw [htasks] at hb
      rcases List.mem_map.mp hb with ⟨y, hy, hby⟩
      by_cases hyi : (y.id == i) = true
      · rw [if_pos hyi] at hby
        subst hby
        obtain ⟨ht0mem, ht0id⟩ := find?_id_mem hfind
        have haid : a.id = t0.id := by rw [← hid, hid']
        have hat0 : a = t0 := eq_of_mem_of_id_eq hinv.2 ht0mem ha haid
        rw [← hat0] at hcomp'
        rw [hcomp', hc]
        simp
      · rw [if_neg hyi] at hby
        subst hby
        rw [eq_of_mem_of_id_eq hinv.2 ha hy hid]
        exact hc
    | delete i now n st st' hok =>
      obtain ⟨_, _, htasks, _, _, _⟩ := delete_task_ok hok
      rw [htasks] at hb
      have hb1 := (List.mem_filter.mp hb).1
      rcases List.mem_map.mp hb1 with ⟨y, hy, hby⟩
      by_cases hyi : i ∈ y.dependencies
      · rw [if_pos (by simpa using hyi)] at hby
        subst hby
        have hya : y = a := eq_of_mem_of_id_eq hinv.2 ha hy (by simpa using hid)
        subst hya
        exact hc
      · rw [if_neg (by simpa using hyi)] at hby
        subst hby
        rw [eq_of_mem_of_id_eq hinv.2 ha hy hid]
        exact hc
    | stats now s st st' hok =>
      have hsh := (get_task_statistics_shape now st).1
      rw [hok] at hsh
      simp only at hsh
      rw [hsh] at hb
      rw [eq_of_mem_of_id_eq hinv.2 ha hb hid]
      exact hc
    | bulk ds now r st st' hv hok =>
      unfold bulk_create_tasks at hok
      split at hok
      · have hst : st' = st := by
          have := congrArg Prod.snd hok
          simpa using this.symm
        rw [hst] at hb
        rw [eq_of_mem_of_id_eq hinv.2 ha hb hid]
        exact hc
      · have hs : st' = (runCreates now ds st).2 := by
          have := congrArg Prod.snd hok
          simpa using this.symm
        rw [hs] at hb
        have hmem : a ∈ (runCreates now ds st).2.tasks := runCreates_mem ds st ha
        have hfin : StoreInv (runCreates now ds st).2 := runCreates_inv ds st hinv
        rw [eq_of_mem_of_id_eq hfin.2 hmem hb hid]
        exact hc

def w5t : Task := { blankTask with id := 1, title := "abc" }

def w5st : StoreState :=
  { tasks := [w5t], counter := 1, analytics_cache := none, cache_expiry := none }

def w5u : TaskUpdate := { status := some TaskStatus.completed }

def w5t' : Task := (okOr (update_task 1 w5u 7 w5st) (blankTask, w5st)).1

def w5st' : StoreState := (okOr (update_task 1 w5u 7 w5st) (blankTask, w5st)).2

/-- Witness for C5: completing a concrete pending task stamps
`completed_at` with the clock value. -/
theorem C5_completed_at_once_witness :
    update_task 1 w5u 7 w5st = .ok (w5t', w5st') ∧
    w5st.tasks.find? (fun x => x.id == 1) = some w5t ∧
    (w5u.status = some TaskStatus.completed ∧ w5t.completed_at = none) ∧
    w5t'.completed_at = some 7 :=
  ⟨by rfl, by rfl, ⟨rfl, rfl⟩,
    ((C5_completed_at_once.1 w5st 1 w5u 7 w5t' w5st' w5t (by rfl) (by rfl)).1 ⟨rfl, rfl⟩)⟩

end App

namespace App

def okOrD (r : Except Err (Nat × StoreState)) (fb : Nat × StoreState) : Nat × StoreState :=
  match r with
  | .ok p => p
  | .error _ => fb

theorem hasId_of_mem {st : StoreState} {t : Task} (ht : t ∈ st.tasks) :
    st.hasId t.id = true :=
  List.any_eq_true.mpr ⟨t, ht, by simp⟩

/-- C2 (amended): deleting a present task succeeds; the returned count is
the number of tasks in the whole store whose dependencies list contains
the id — the target itself included, so a self-dependency IS counted;
no task with the deleted id survives; and every other task survives
with the first occurrence of the id removed from its dependencies and
`updated_at` bumped when it was a dependent, unchanged otherwise. -/
theorem C2_delete_semantics (st : StoreState) (i : Nat) (now : Time)
    (hpresent : ∃ t ∈ st.tasks, t.id = i) :
    ∃ n st', delete_task i now st = .ok (n, st') ∧
      n = (st.tasks.filter (fun t => t.dependencies.contains i)).length ∧
      (∀ t' ∈ st'.tasks, t'.id ≠ i) ∧
      (∀ t ∈ st.tasks, t.id ≠ i →
        (i ∈ t.dependencies →
          ({ t with dependencies := t.dependencies.erase i, updated_at := some now } : Task)
            ∈ st'.tasks) ∧
        (i ∉ t.dependencies → t ∈ st'.tasks)) := by
  have hhas : st.hasId i = true := by
    rcases hpresent with ⟨t, ht, hti⟩
    exact hti ▸ hasId_of_mem ht
  refine ⟨(st.tasks.filter (fun t => t.dependencies.contains i)).length,
    { st with
        tasks := ((st.tasks.map (fun t =>
          if t.dependencies.contains i then
            { t with dependencies := t.dependencies.erase i, updated_at := some now }
          else t)).filter (fun t => !(t.id == i))),
        analytics_cache := none }, ?_, rfl, ?_, ?_⟩
  · unfold delete_task
    rw [hhas]
    rfl
  · intro t' ht'
    have := (List.mem_filter.mp ht').2
    simpa using this
  · intro t ht hti
    constructor
    · intro hdep
      refine List.mem_filter.mpr ⟨?_, by simpa using hti⟩
      refine List.mem_map.mpr ⟨t, ht, ?_⟩
      rw [if_pos (by simpa using hdep)]
    · intro hdep
      refine List.mem_filter.mpr ⟨?_, by simpa using hti⟩
      refine List.mem_map.mpr ⟨t, ht, ?_⟩
      rw [if_neg (by simpa using hdep)]

def c2u : TaskUpdate := { dependencies := some [1] }

def c2t' : Task := (okOr (update_task 1 c2u 5 w6st) (blankTask, w6st)).1

def c2st : StoreState := (okOr (update_task 1 c2u 5 w6st) (blankTask, w6st)).2

def c2res : Nat × StoreState := okOrD (delete_task 1 9 c2st) (0, c2st)

/-- C2 counterexample: in the reachable state where the only task (id 1)
depends on itself — allowed, since update permits self-reference —
deleting it returns affected count 1, although the number of OTHER
tasks depending on it is 0; the claim as stated says a self-dependency
is not counted. -/
theorem C2_counterexample :
    Reachable c2st ∧
    (c2st.tasks.filter (fun t => !(t.id == 1) && t.dependencies.contains 1)).length = 0 ∧
    delete_task 1 9 c2st = .ok (c2res.1, c2res.2) ∧
    c2res.1 = 1 := by
  have h1 : Step initState w6st := Step.create w6d 0 w6t initState w6st (by decide) (by rfl)
  have h2 : Step w6st c2st := Step.update 1 c2u 5 c2t' w6st c2st (by decide) (by rfl)
  exact ⟨Reachable.step (Reachable.step Reachable.init h1) h2, by decide, by rfl, by decide⟩

/-- C1 (amended): after a successful delete of a present task X from a
reachable state, any surviving task whose dependencies listed X.id at
most once no longer lists X.id at all; in general exactly the first
occurrence is removed, so the multiplicity of X.id drops by one on
every dependent. -/
theorem C1_delete_prunes_dependencies (st : StoreState) (hreach : Reachable st)
    (X : Task) (hX : X ∈ st.tasks) (now : Time) (n : Nat) (st' : StoreState)
    (hok : delete_task X.id now st = .ok (n, st')) :
    ∀ t ∈ st.tasks, t.id ≠ X.id →
      ∀ t' ∈ st'.tasks, t'.id = t.id →
        (t.dependencies.count X.id ≤ 1 → X.id ∉ t'.dependencies) ∧
        (X.id ∈ t.dependencies →
          t'.dependencies.count X.id = t.dependencies.count X.id - 1) := by
  have hinv := reachable_storeInv hreach
  obtain ⟨_, _, htasks, _, _, _⟩ := delete_task_ok hok
  intro t ht hti t' ht' htid
  rw [htasks] at ht'
  have ht1 := (List.mem_filter.mp ht').1
  rcases List.mem_map.mp ht1 with ⟨y, hy, hby⟩
  by_cases hyi : X.id ∈ y.dependencies
  · rw [if_pos (by simpa using hyi)] at hby
    have hyt : y = t := by
      refine eq_of_mem_of_id_eq hinv.2 ht hy ?_
      rw [← htid, ← hby]
    subst hyt
    subst hby
    constructor
    · intro hcount
      have herase : List.count X.id (y.dependencies.erase X.id) =
          List.count X.id y.dependencies - 1 := List.count_erase_self X.id y.dependencies
      have hpos : 0 < List.count X.id y.dependencies := List.count_pos_iff.mpr hyi
      have hz : List.count X.id (y.dependencies.erase X.id) = 0 := by omega
      exact List.count_eq_zero.mp hz
    · intro _
      exact List.count_erase_self X.id y.dependencies
  · rw [if_neg (by simpa using hyi)] at hby
    have hyt : y = t := by
      refine eq_of_mem_of_id_eq hinv.2 ht hy ?_
      rw [← htid, ← hby]
    subst hyt
    subst hby
    constructor
    · intro _
      exact hyi
    · intro hmem
      exact absurd hmem hyi

def c1d2 : TaskCreate :=
  { title := "bcd", category := TaskCategory.testing, dependencies := [1, 1] }

def c1t2 : Task := (okOr (create_task c1d2 1 w6st) (blankTask, w6st)).1

def c1st : StoreState := (okOr (create_task c1d2 1 w6st) (blankTask, w6st)).2

def c1res : Nat × StoreState := okOrD (delete_task 1 9 c1st) (0, c1st)

/-- C1 counterexample: task 2 lists dependency 1 twice (a reachable
state, since create validates each entry separately); deleting task 1
succeeds but `list.remove` removes only the first occurrence, so task 2
still contains the dangling id 1 afterwards. -/
theorem C1_counterexample :
    Reachable c1st ∧
    (∃ t ∈ c1st.tasks, t.id = 1) ∧
    delete_task 1 9 c1st = .ok (c1res.1, c1res.2) ∧
    (c1res.2.tasks.any (fun t => t.dependencies.contains 1)) = true := by
  have h1 : Step initState w6st := Step.create w6d 0 w6t initState w6st (by decide) (by rfl)
  have h2 : Step w6st c1st := Step.create c1d2 1 c1t2 w6st c1st (by decide) (by rfl)
  exact ⟨Reachable.step (Reachable.step Reachable.init h1) h2, by decide, by rfl, by decide⟩

def w1d2 : TaskCreate :=
  { title := "bcd", category := TaskCategory.testing, dependencies := [1] }

def w1B : Task := (okOr (create_task w1d2 1 w6st) (blankTask, w6st)).1

def w1st : StoreState := (okOr (create_task w1d2 1 w6st) (blankTask, w6st)).2

def w1res : Nat × StoreState := okOrD (delete_task w6t.id 9 w1st) (0, w1st)

def w1B' : Task := w1res.2.tasks.headD blankTask

/-- Witness for C1 (amended) at the single-occurrence scenario: B depends
once on A; after deleting A, B no longer lists A's id. -/
theorem C1_delete_prunes_dependencies_witness :
    Reachable w1st ∧ w6t ∈ w1st.tasks ∧
    delete_task w6t.id 9 w1st = .ok (w1res.1, w1res.2) ∧
    w1B ∈ w1st.tasks ∧ w1B.id ≠ w6t.id ∧ w1B' ∈ w1res.2.tasks ∧ w1B'.id = w1B.id ∧
    w1B.dependencies.count w6t.id ≤ 1 ∧ w6t.id ∉ w1B'.dependencies := by
  have h1 : Step initState w6st := Step.create w6d 0 w6t initState w6st (by decide) (by rfl)
  have h2 : Step w6st w1st := Step.create w1d2 1 w1B w6st w1st (by decide) (by rfl)
  have hreach : Reachable w1st := Reachable.step (Reachable.step Reachable.init h1) h2
  refine ⟨hreach, by decide, by rfl, by decide, by decide, by decide, by decide, by decide, ?_⟩
  exact (C1_delete_prunes_dependencies w1st hreach w6t (by decide) 9 w1res.1 w1res.2 (by rfl)
    w1B (by decide) (by decide) w1B' (by decide) (by decide)).1 (by decide)

end App

namespace App

/-! ### C3 and C8: sorting and pagination -/

def c3d2 : TaskCreate := { title := "bcd", category := TaskCategory.testing }

def c3t2 : Task := (okOr (create_task c3d2 5 w6st) (blankTask, w6st)).1

def c3stA : StoreState := (okOr (create_task c3d2 5 w6st) (blankTask, w6st)).2

def c3u : TaskUpdate := { status := some TaskStatus.in_progress }

def c3t2' : Task := (okOr (update_task 2 c3u 8 c3stA) (blankTask, c3stA)).1

def c3st : StoreState := (okOr (update_task 2 c3u 8 c3stA) (blankTask, c3stA)).2

/-- C3 (code bug): sorting by `updated_at` raises `TypeError` (an HTTP
500) on the perfectly ordinary reachable snapshot with one
never-updated task (null `updated_at`) and one updated task: the sort
key `x.get('updated_at', "")` returns the stored `None` — the `.get`
default applies only to missing keys and the key always exists — so a
`None` reaches the `<` comparison.  Null is never treated as the
minimum.  The other sort keys behave: sorting the same snapshot by
`created_at` succeeds (descending by default). -/
theorem C3_sort_updated_at_raises :
    Reachable c3st ∧
    c3st.tasks.map (fun t => t.updated_at) = [none, some 8] ∧
    get_tasks { sort_by := SortBy.updated_at } c3st = .error () ∧
    get_tasks { sort_by := SortBy.created_at } c3st = .ok [c3t2', w6t] := by
  have h1 : Step initState w6st := Step.create w6d 0 w6t initState w6st (by decide) (by rfl)
  have h2 : Step w6st c3stA := Step.create c3d2 5 c3t2 w6st c3stA (by decide) (by rfl)
  have h3 : Step c3stA c3st := Step.update 2 c3u 8 c3t2' c3stA c3st (by decide) (by rfl)
  exact ⟨Reachable.step (Reachable.step (Reachable.step Reachable.init h1) h2) h3,
    by decide, by rfl, by rfl⟩

theorem sortTasks_length (sb : SortBy) (ord : SortOrder) (l : List Task) :
    (sortTasks sb ord l).length = l.length := by
  cases ord with
  | asc => exact insertionSortB_length _ l
  | desc => exact insertionSortB_length _ l

theorem get_tasks_of_not_raises (q : TasksQuery) (st : StoreState)
    (h : sortRaises q st = false) :
    get_tasks q st =
      .ok (((sortTasks q.sort_by q.order (filteredTasks q st)).drop q.offset).take q.limit) := by
  unfold get_tasks
  rw [h]
  simp

/-- C8 (amended): over a fixed snapshot and fixed filter/sort parameters,
whenever the query succeeds (the `updated_at` sort comparison did not
raise — the sole failure mode, carried over from C3), page (0, n)
concatenated with page (n, m) is exactly page (0, n+m), with no
truncation needed; and an offset at or beyond the filtered length
yields an empty page rather than an error. -/
theorem C8_pagination_law (st : StoreState) (p : TasksQuery) (n m : Nat)
    (hn : 1 ≤ n) (hm : 1 ≤ m) (hbound : n + m ≤ 1000) (L : List Task)
    (hok : get_tasks { p with offset := 0, limit := n + m } st = .ok L) :
    (∃ L1 L2, get_tasks { p with offset := 0, limit := n } st = .ok L1 ∧
      get_tasks { p with offset := n, limit := m } st = .ok L2 ∧ L1 ++ L2 = L) ∧
    (∀ off lim L', get_tasks { p with offset := off, limit := lim } st = .ok L' →
      (filteredTasks p st).length ≤ off → L' = []) := by
  by_cases hr : sortRaises p st = true
  · unfold get_tasks at hok
    rw [show sortRaises { p with offset := 0, limit := n + m } st = true from hr] at hok
    simp at hok
  · have hfalse : sortRaises p st = false := by simpa using hr
    have e0 := get_tasks_of_not_raises { p with offset := 0, limit := n + m } st hfalse
    rw [e0] at hok
    simp only [Except.ok.injEq] at hok
    have e1 := get_tasks_of_not_raises { p with offset := 0, limit := n } st hfalse
    have e2 := get_tasks_of_not_raises { p with offset := n, limit := m } st hfalse
    constructor
    · refine ⟨_, _, e1, e2, ?_⟩
      rw [← hok]
      show ((sortTasks p.sort_by p.order (filteredTasks p st)).drop 0).take n ++
        ((sortTasks p.sort_by p.order (filteredTasks p st)).drop n).take m =
        ((sortTasks p.sort_by p.order (filteredTasks p st)).drop 0).take (n + m)
      rw [List.drop_zero, List.take_add]
    · intro off lim L' hok' hoff
      have e3 := get_tasks_of_not_raises { p with offset := off, limit := lim } st hfalse
      rw [e3] at hok'
      simp only [Except.ok.injEq] at hok'
      rw [← hok']
      show ((sortTasks p.sort_by p.order (filteredTasks p st)).drop off).take lim = []
      have hlen : (sortTasks p.sort_by p.order (filteredTasks p st)).length ≤ off := by
        rw [sortTasks_length]
        exact hoff
      rw [List.drop_eq_nil_of_le hlen]
      exact List.take_nil

def w8p : TasksQuery := { }

/-- Witness for C8 (amended) at the two-task snapshot of C3 with the
default (created_at, desc) parameters and n = m = 1. -/
theorem C8_pagination_law_witness :
    (1 ≤ 1 ∧ 1 + 1 ≤ 1000) ∧
    get_tasks { w8p with offset := 0, limit := 1 + 1 } c3st = .ok [c3t2', w6t] ∧
    ((∃ L1 L2, get_tasks { w8p with offset := 0, limit := 1 } c3st = .ok L1 ∧
        get_tasks { w8p with offset := 1, limit := 1 } c3st = .ok L2 ∧
        L1 ++ L2 = [c3t2', w6t]) ∧
      (∀ off lim L', get_tasks { w8p with offset := off, limit := lim } c3st = .ok L' →
        (filteredTasks w8p c3st).length ≤ off → L' = [])) :=
  ⟨⟨by decide, by decide⟩, by rfl,
    C8_pagination_law c3st w8p 1 1 (by decide) (by decide) (by decide) [c3t2', w6t] (by rfl)⟩

/-- C8 counterexample: with `sort_by=updated_at` over the C3 snapshot,
an offset (5) beyond the filtered length (2) yields the sort TypeError,
not an empty sequence — refuting the claim's "empty sequence rather
than an error" as universally stated. -/
theorem C8_counterexample :
    (filteredTasks { sort_by := SortBy.updated_at, offset := 5, limit := 1 } c3st).length ≤ 5 ∧
    get_tasks { sort_by := SortBy.updated_at, offset := 5, limit := 1 } c3st = .error () := by
  exact ⟨by decide, by rfl⟩

end App

namespace App

/-! ### C4: averages and Python truthiness -/

theorem filterMap_truthy_eq (f : Task → Option Rat) (l : List Task) :
    l.filterMap (fun t => truthyHours (f t)) =
      (l.filter (fun t => decide (f t ≠ none ∧ f t ≠ some 0))).map (fun t => (f t).getD 0) := by
  induction l with
  | nil => rfl
  | cons a l ih =>
    cases hfa : f a with
    | none =>
      have h1 : truthyHours (f a) = none := by rw [hfa]; rfl
      have h2 : decide (f a ≠ none ∧ f a ≠ some 0) = false := by simp [hfa]
      rw [List.filterMap_cons, h1, List.filter_cons, h2]
      dsimp only
      exact ih
    | some v =>
      by_cases hv : v = 0
      · subst hv
        have h1 : truthyHours (f a) = none := by rw [hfa]; simp [truthyHours]
        have h2 : decide (f a ≠ none ∧ f a ≠ some 0) = false := by simp [hfa]
        rw [List.filterMap_cons, h1, List.filter_cons, h2]
        dsimp only
        exact ih
      · have h1 : truthyHours (f a) = some v := by rw [hfa]; simp [truthyHours, hv]
        have h2 : decide (f a ≠ none ∧ f a ≠ some 0) = true := by simp [hfa, hv]
        rw [List.filterMap_cons, h1, List.filter_cons, h2]
        simp [hfa, ih]

theorem stats_cache_miss (now : Time) (st : StoreState)
    (hmiss : st.analytics_cache = none) :
    get_task_statistics now st = statsRecompute now st := by
  unfold get_task_statistics
  rw [hmiss]

/-- C4 (amended): on a cache miss the summary averages are computed over
exactly the tasks whose hours value is truthy — non-null AND nonzero —
so a task with a non-null 0.0 value is excluded exactly like a null
one; the average is 0 when no truthy value exists and otherwise the
rounded mean of the truthy values. -/
theorem C4_average_hours_truthy (st : StoreState) (now : Time)
    (hmiss : st.analytics_cache = none) :
    (get_task_statistics now st).1 = computeStats st.tasks ∧
    ((computeStats st.tasks).average_estimated_hours =
      (let tsE := st.tasks.filter
        (fun t => decide (t.estimated_hours ≠ none ∧ t.estimated_hours ≠ some 0))
       if 0 < tsE.length then
         pyRound2 ((tsE.map (fun t => t.estimated_hours.getD 0)).sum / (tsE.length : Rat))
       else 0)) ∧
    ((computeStats st.tasks).average_actual_hours =
      (let tsA := st.tasks.filter
        (fun t => decide (t.actual_hours ≠ none ∧ t.actual_hours ≠ some 0))
       if 0 < tsA.length then
         pyRound2 ((tsA.map (fun t => t.actual_hours.getD 0)).sum / (tsA.length : Rat))
       else 0)) := by
  refine ⟨by rw [stats_cache_miss now st hmiss]; rfl, ?_, ?_⟩
  · show (if 0 < (st.tasks.filterMap (fun t => truthyHours t.estimated_hours)).length then
        pyRound2 ((st.tasks.filterMap (fun t => truthyHours t.estimated_hours)).sum /
          ((st.tasks.filterMap (fun t => truthyHours t.estimated_hours)).length : Rat))
      else 0) = _
    rw [filterMap_truthy_eq (fun t => t.estimated_hours) st.tasks]
    simp [List.length_map]
  · show (if 0 < (st.tasks.filterMap (fun t => truthyHours t.actual_hours)).length then
        pyRound2 ((st.tasks.filterMap (fun t => truthyHours t.actual_hours)).sum /
          ((st.tasks.filterMap (fun t => truthyHours t.actual_hours)).length : Rat))
      else 0) = _
    rw [filterMap_truthy_eq (fun t => t.actual_hours) st.tasks]
    simp [List.length_map]

def c4t1 : Task := { blankTask with id := 1, title := "abc", estimated_hours := some 0 }

def c4t2 : Task := { blankTask with id := 2, title := "bcd", estimated_hours := some 10 }

def c4st : StoreState :=
  { tasks := [c4t1, c4t2], counter := 2, analytics_cache := none, cache_expiry := none }

/-- C4 counterexample: with estimated hours 0.0 and 10.0 the computed
average is 10 — the 0.0 task is dropped by the truthiness test
`if t[estimated_hours]` — while the claim's average over tasks with a
non-null value is round((0 + 10) / 2, 2) = 5. -/
theorem C4_counterexample :
    (get_task_statistics 0 c4st).1.average_estimated_hours = 10 ∧
    pyRound2 (((0 : Rat) + 10) / 2) = 5 ∧ (10 : Rat) ≠ 5 := by
  refine ⟨?_, ?_, by norm_num⟩
  · show (computeStats c4st.tasks).average_estimated_hours = 10
    have hest : c4st.tasks.filterMap (fun t => truthyHours t.estimated_hours) = [10] := by
      decide
    show (if 0 < (c4st.tasks.filterMap (fun t => truthyHours t.estimated_hours)).length then
        pyRound2 ((c4st.tasks.filterMap (fun t => truthyHours t.estimated_hours)).sum /
          ((c4st.tasks.filterMap (fun t => truthyHours t.estimated_hours)).length : Rat))
      else 0) = 10
    rw [hest]
    norm_num [pyRound2, ratFloorI, List.sum_cons]
  · norm_num [pyRound2, ratFloorI]

/-! ### C9: the statistics cache survives creates and updates -/

theorem cuStep_cache_preserved {st st' : StoreState} (h : CUStep st st') :
    st'.analytics_cache = st.analytics_cache ∧ st'.cache_expiry = st.cache_expiry := by
  cases h with
  | create d now t st st' hv hok =>
    obtain ⟨_, _, _, _, _, _, _, hc, he, _⟩ := create_task_ok hok
    exact ⟨hc, he⟩
  | update i u now t st st' hv hok =>
    obtain ⟨t0, _, _, _, hc, he, _⟩ := update_task_ok hok
    exact ⟨hc, he⟩

theorem cuChain_cache_preserved {st st' : StoreState}
    (hchain : Relation.ReflTransGen CUStep st st') :
    st'.analytics_cache = st.analytics_cache ∧ st'.cache_expiry = st.cache_expiry := by
  induction hchain with
  | refl => exact ⟨rfl, rfl⟩
  | tail _ hstep ih =>
    obtain ⟨h1, h2⟩ := cuStep_cache_preserved hstep
    exact ⟨h1.trans ih.1, h2.trans ih.2⟩

theorem stats_cache_hit (st : StoreState) (S : Stats) (e : Time) (now : Time)
    (hc : st.analytics_cache = some S) (he : st.cache_expiry = some e) (hlt : now < e) :
    get_task_statistics now st = (S, st) := by
  unfold get_task_statistics
  rw [hc, he]
  simp [hlt]

/-- C9: no sequence of single creates and updates touches the summary
cache: if the cache holds S with expiry e, it still holds S with the
same expiry after the sequence, and a stats read before e returns the
cached S unchanged (reflecting the pre-mutation store); a successful
delete, by contrast, always clears the cache cell. -/
theorem C9_cache_survives_creates_updates (st st' : StoreState) (S : Stats) (e : Time)
    (hc : st.analytics_cache = some S) (he : st.cache_expiry = some e)
    (hchain : Relation.ReflTransGen CUStep st st') :
    st'.analytics_cache = some S ∧ st'.cache_expiry = some e ∧
    (∀ now, now < e → get_task_statistics now st' = (S, st')) ∧
    (∀ i now n st'', delete_task i now st' = .ok (n, st'') → st''.analytics_cache = none) := by
  obtain ⟨h1, h2⟩ := cuChain_cache_preserved hchain
  have hc' : st'.analytics_cache = some S := h1.trans hc
  have he' : st'.cache_expiry = some e := h2.trans he
  refine ⟨hc', he', fun now hlt => stats_cache_hit st' S e now hc' he' hlt, ?_⟩
  intro i now n st'' hdel
  exact (delete_task_ok hdel).2.2.2.2.1

def w9st : StoreState := (get_task_statistics 0 w5st).2

def w9S : Stats := computeStats w5st.tasks

def w9d : TaskCreate := { title := "cde", category := TaskCategory.feature }

def w9t : Task := (okOr (create_task w9d 10 w9st) (blankTask, w9st)).1

def w9st' : StoreState := (okOr (create_task w9d 10 w9st) (blankTask, w9st)).2

/-- Witness for C9: after caching the stats of a one-task store, a
create within the TTL leaves the cached object to be served verbatim. -/
theorem C9_cache_survives_creates_updates_witness :
    w9st.analytics_cache = some w9S ∧ w9st.cache_expiry = some 60 ∧
    Relation.ReflTransGen CUStep w9st w9st' ∧
    (w9st'.analytics_cache = some w9S ∧ w9st'.cache_expiry = some 60 ∧
      (∀ now, now < 60 → get_task_statistics now w9st' = (w9S, w9st')) ∧
      (∀ i now n st'', delete_task i now w9st' = .ok (n, st'') →
        st''.analytics_cache = none)) := by
  have hstep : CUStep w9st w9st' := CUStep.create w9d 10 w9t w9st w9st' (by decide) (by rfl)
  have hchain : Relation.ReflTransGen CUStep w9st w9st' := Relation.ReflTransGen.single hstep
  exact ⟨rfl, rfl, hchain, C9_cache_survives_creates_updates w9st w9st' w9S 60 rfl rfl hchain⟩

end App

namespace App

/-! ### C10: bulk create is sequential and non-atomic -/

theorem runCreates_append_error {now : Time} {st1 : StoreState} {bad : TaskCreate}
    {rest : List TaskCreate} {e : Err} (hbad : create_task bad now st1 = .error e) :
    ∀ (pre : List TaskCreate) (st : StoreState) (created : List Task),
      runCreates now pre st = (.ok created, st1) →
      runCreates now (pre ++ bad :: rest) st = (.error e, st1) := by
  intro pre
  induction pre with
  | nil =>
    intro st created hpre
    simp only [runCreates, Prod.mk.injEq, Except.ok.injEq] at hpre
    obtain ⟨_, hst⟩ := hpre
    subst hst
    simp only [List.nil_append]
    unfold runCreates
    rw [hbad]
  | cons d pre ih =>
    intro st created hpre
    rw [List.cons_append]
    unfold runCreates at hpre ⊢
    cases hc : create_task d now st with
    | error e' =>
      rw [hc] at hpre
      simp at hpre
    | ok p =>
      obtain ⟨t, stA⟩ := p
      rw [hc] at hpre
      dsimp only at hpre ⊢
      cases hr : runCreates now pre stA with
      | mk r stB =>
        rw [hr] at hpre
        cases r with
        | error e'' => simp at hpre
        | ok ts =>
          simp only [Prod.mk.injEq, Except.ok.injEq] at hpre
          obtain ⟨_, hst1⟩ := hpre
          subst hst1
          rw [ih stA ts hr]

theorem runCreates_created_mem {now : Time} :
    ∀ (ds : List TaskCreate) (st : StoreState) (created : List Task) (st1 : StoreState),
      runCreates now ds st = (.ok created, st1) → ∀ t ∈ created, t ∈ st1.tasks := by
  intro ds
  induction ds with
  | nil =>
    intro st created st1 h
    simp only [runCreates, Prod.mk.injEq, Except.ok.injEq] at h
    obtain ⟨hcr, _⟩ := h
    subst hcr
    intro t ht
    exact absurd ht (List.not_mem_nil t)
  | cons d rest ih =>
    intro st created st1 h
    unfold runCreates at h
    cases hc : create_task d now st with
    | error e =>
      rw [hc] at h
      simp at h
    | ok p =>
      obtain ⟨t0, stA⟩ := p
      rw [hc] at h
      dsimp only at h
      cases hr : runCreates now rest stA with
      | mk r stB =>
        rw [hr] at h
        cases r with
        | error e => simp at h
        | ok ts =>
          simp only [Prod.mk.injEq, Except.ok.injEq] at h
          obtain ⟨hcr, hstB⟩ := h
          subst hcr
          subst hstB
          intro t ht
          rcases List.mem_cons.mp ht with ht1 | ht1
          · subst ht1
            obtain ⟨htasks, _⟩ := create_task_ok hc
            have ht0A : t ∈ stA.tasks := by
              rw [htasks]
              exact List.mem_append_right _ (List.mem_singleton.mpr rfl)
            have hmm : t ∈ (runCreates now rest stA).2.tasks :=
              runCreates_mem rest stA ht0A
            rw [hr] at hmm
            exact hmm
          · exact ih stA ts stB hr t ht1

/-- C10: bulk create within the 100-item limit runs the single-create
path sequentially in input order; when item k fails (here: the first
failing item after a successful prefix), the error is raised to the
caller, and the tasks created from the prefix remain persisted in the
resulting store. -/
theorem C10_bulk_create_not_atomic (st : StoreState) (now : Time)
    (pre : List TaskCreate) (bad : TaskCreate) (rest : List TaskCreate)
    (hlen : (pre ++ bad :: rest).length ≤ 100)
    (created : List Task) (st1 : StoreState)
    (hpre : runCreates now pre st = (.ok created, st1))
    (e : Err) (hbad : create_task bad now st1 = .error e) :
    bulk_create_tasks (pre ++ bad :: rest) now st = (.error e, st1) ∧
    ∀ t ∈ created, t ∈ st1.tasks := by
  constructor
  · unfold bulk_create_tasks
    rw [if_neg (by omega)]
    exact runCreates_append_error hbad pre st created hpre
  · exact runCreates_created_mem pre st created st1 hpre

def w10bad : TaskCreate :=
  { title := "bad", category := TaskCategory.bugfix, dependencies := [99] }

/-- Witness for C10: a two-item batch whose second item references the
unknown dependency 99 errors out while the first item's task remains
persisted. -/
theorem C10_bulk_create_not_atomic_witness :
    ([w6d] ++ w10bad :: []).length ≤ 100 ∧
    runCreates 0 [w6d] initState = (.ok [w6t], w6st) ∧
    create_task w10bad 0 w6st = .error (.depNotFound 99) ∧
    (bulk_create_tasks ([w6d] ++ w10bad :: []) 0 initState = (.error (.depNotFound 99), w6st) ∧
      ∀ t ∈ [w6t], t ∈ w6st.tasks) :=
  ⟨by decide, by rfl, by rfl,
    C10_bulk_create_not_atomic initState 0 [w6d] w10bad [] (by decide) [w6t] w6st (by rfl)
      (.depNotFound 99) (by rfl)⟩

end App

namespace App

/-- Witness for C2 (amended) at a one-task store: deleting the only task
succeeds with the stated count and per-task correspondence. -/
theorem C2_delete_semantics_witness :
    (∃ t ∈ w5st.tasks, t.id = 1) ∧
    (∃ n st', delete_task 1 3 w5st = .ok (n, st') ∧
      n = (w5st.tasks.filter (fun t => t.dependencies.contains 1)).length ∧
      (∀ t' ∈ st'.tasks, t'.id ≠ 1) ∧
      (∀ t ∈ w5st.tasks, t.id ≠ 1 →
        (1 ∈ t.dependencies →
          ({ t with dependencies := t.dependencies.erase 1, updated_at := some 3 } : Task)
            ∈ st'.tasks) ∧
        (1 ∉ t.dependencies → t ∈ st'.tasks))) :=
  ⟨⟨w5t, by decide, by decide⟩, C2_delete_semantics w5st 1 3 ⟨w5t, by decide, by decide⟩⟩

/-- Witness for C4 (amended) at the concrete two-task store of the C4
counterexample, whose cache is empty. -/
theorem C4_average_hours_truthy_witness :
    c4st.analytics_cache = none ∧
    ((get_task_statistics 0 c4st).1 = computeStats c4st.tasks ∧
    ((computeStats c4st.tasks).average_estimated_hours =
      (let tsE := c4st.tasks.filter
        (fun t => decide (t.estimated_hours ≠ none ∧ t.estimated_hours ≠ some 0))
       if 0 < tsE.length then
         pyRound2 ((tsE.map (fun t => t.estimated_hours.getD 0)).sum / (tsE.length : Rat))
       else 0)) ∧
    ((computeStats c4st.tasks).average_actual_hours =
      (let tsA := c4st.tasks.filter
        (fun t => decide (t.actual_hours ≠ none ∧ t.actual_hours ≠ some 0))
       if 0 < tsA.length then
         pyRound2 ((tsA.map (fun t => t.actual_hours.getD 0)).sum / (tsA.length : Rat))
       else 0))) :=
  ⟨rfl, C4_average_hours_truthy c4st 0 rfl⟩

end App
